import Mathlib

/-!
Verification of the castkeeper incremental podcast-sync engine.

The stored tables are modelled as association lists keyed by uuid, remote
responses as structures mirroring the TypeScript interfaces in
src/src/types.ts, and each core operation as a pure Lean function
translated from the corresponding source function.  Functions whose
current implementation is not part of the snapshot (the db.ts generation
holding updateEpisodePlayedAt, saveBookmarks and the backup progress
counter) are modelled from the specification, as marked in their doc
comments.
-/

namespace Castkeeper

/-- Generic first-match lookup in an association list keyed by strings. -/
def assocFind {β : Type} : List (String × β) → String → Option β
  | [], _ => none
  | p :: rest, k => if p.1 = k then some p.2 else assocFind rest k

/-! ## Monotonic timestamp updater (updateEpisodePlayedAt) -/

/-- A merged listen-history entry, from src/src/history.ts (HistoryEntry). -/
structure HistoryEntry where
  uuid : String
  played_at : String
  deriving Repr, DecidableEq

/-- The aggregate result returned by updateEpisodePlayedAt. -/
structure PlayedAtResult where
  updated : Nat
  skipped : Nat
  deriving Repr, DecidableEq

/-- The episodes table restricted to the columns updateEpisodePlayedAt touches:
uuid together with the nullable played_at column. -/
abbrev EpisodeStore := List (String × Option String)

/-- Modelled from the spec: the store write performed by updateEpisodePlayedAt
for one episode, setting the played_at column of the row with the given uuid. -/
def setPlayedAt (st : EpisodeStore) (u : String) (t : String) : EpisodeStore :=
  st.map (fun p => (p.1, if p.1 = u then some t else p.2))

/-- Modelled from the spec: the per-candidate step of updateEpisodePlayedAt
(the implementation in the current db.ts is not part of the snapshot; only
its tests in src/test/db.test.ts and its caller in src/unnamed/part_001 are).
A candidate is updated when the episode exists and its stored played_at is
null or strictly earlier than the candidate, and skipped otherwise. -/
def playedAtStep (acc : EpisodeStore × PlayedAtResult) (e : HistoryEntry) :
    EpisodeStore × PlayedAtResult :=
  match assocFind acc.1 e.uuid with
  | none => (acc.1, ⟨acc.2.updated, acc.2.skipped + 1⟩)
  | some none => (setPlayedAt acc.1 e.uuid e.played_at, ⟨acc.2.updated + 1, acc.2.skipped⟩)
  | some (some t) =>
    if t < e.played_at then
      (setPlayedAt acc.1 e.uuid e.played_at, ⟨acc.2.updated + 1, acc.2.skipped⟩)
    else
      (acc.1, ⟨acc.2.updated, acc.2.skipped + 1⟩)

/-- Modelled from the spec: updateEpisodePlayedAt applies the deduplicated
history entries to the store, updating only rows whose stored played_at is
null or strictly earlier than the candidate, and returns the updated and
skipped counts covering every candidate exactly once. -/
def updateEpisodePlayedAt (st : EpisodeStore) (entries : List HistoryEntry) :
    EpisodeStore × PlayedAtResult :=
  entries.foldl playedAtStep (st, ⟨0, 0⟩)

/-- The spec notion of a candidate that gets outcome updated: the episode
exists in the store and its stored played_at is null or strictly earlier
than the candidate timestamp. -/
def specWouldUpdate (st : EpisodeStore) (e : HistoryEntry) : Prop :=
  ∃ w, assocFind st e.uuid = some w ∧
    (w = none ∨ ∃ t, w = some t ∧ t < e.played_at)

theorem assocFind_setPlayedAt (st : EpisodeStore) (u t v : String) :
    assocFind (setPlayedAt st u t) v =
      if v = u then (assocFind st v).map (fun _ => some t) else assocFind st v := by
  induction st with
  | nil => simp [setPlayedAt, assocFind]
  | cons p rest ih =>
    simp only [setPlayedAt, List.map_cons, assocFind] at *
    by_cases hv : p.1 = v
    · subst hv
      by_cases hu : p.1 = u
      · simp [hu]
      · simp [hu, Ne.symm hu]
    · simp only [hv, if_false]
      exact ih

theorem playedAtStep_mono (acc : EpisodeStore × PlayedAtResult) (e : HistoryEntry)
    (u T : String) (h : assocFind acc.1 u = some (some T)) :
    ∃ T', assocFind (playedAtStep acc e).1 u = some (some T') ∧ T ≤ T' := by
  unfold playedAtStep
  cases hfind : assocFind acc.1 e.uuid with
  | none => exact ⟨T, by simp [h], le_refl T⟩
  | some w =>
    cases w with
    | none =>
      have hne : u ≠ e.uuid := by
        intro heq; rw [heq] at h; rw [hfind] at h; exact Option.noConfusion (Option.some.inj h)
      refine ⟨T, ?_, le_refl T⟩
      simp [assocFind_setPlayedAt, hne, h]
    | some t =>
      by_cases hlt : t < e.played_at
      · by_cases heq : u = e.uuid
        · have hTt : T = t := by
            rw [heq] at h; rw [hfind] at h; exact (Option.some.inj (Option.some.inj h)).symm
          refine ⟨e.played_at, ?_, ?_⟩
          · simp [hlt, assocFind_setPlayedAt, heq, hfind]
          · exact le_of_lt (hTt ▸ hlt)
        · refine ⟨T, ?_, le_refl T⟩
          simp [hlt, assocFind_setPlayedAt, heq, h]
      · exact ⟨T, by simp [hlt, h], le_refl T⟩

theorem foldl_playedAtStep_mono (entries : List HistoryEntry) :
    ∀ (acc : EpisodeStore × PlayedAtResult) (u T : String),
      assocFind acc.1 u = some (some T) →
      ∃ T', assocFind (entries.foldl playedAtStep acc).1 u = some (some T') ∧ T ≤ T' := by
  induction entries with
  | nil => exact fun acc u T h => ⟨T, h, le_refl T⟩
  | cons e es ih =>
    intro acc u T h
    obtain ⟨T1, h1, le1⟩ := playedAtStep_mono acc e u T h
    obtain ⟨T2, h2, le2⟩ := ih (playedAtStep acc e) u T1 h1
    exact ⟨T2, by simpa using h2, le_trans le1 le2⟩

/-- C1: for an episode whose stored played_at is non-null with value T,
applying a candidate with timestamp at most T is reported skipped and leaves
the store unchanged, applying a strictly later candidate is reported updated
and stores the candidate, and across any sequence of applied updates the
stored played_at never moves backward. -/
theorem updateEpisodePlayedAt_monotone (st : EpisodeStore) (u T : String)
    (h : assocFind st u = some (some T)) :
    (∀ T', T' ≤ T → updateEpisodePlayedAt st [⟨u, T'⟩] = (st, ⟨0, 1⟩)) ∧
    (∀ T', T < T' →
      updateEpisodePlayedAt st [⟨u, T'⟩] = (setPlayedAt st u T', ⟨1, 0⟩) ∧
      assocFind (setPlayedAt st u T') u = some (some T')) ∧
    (∀ entries : List HistoryEntry,
      ∃ T', assocFind (updateEpisodePlayedAt st entries).1 u = some (some T') ∧ T ≤ T') := by
  refine ⟨?_, ?_, ?_⟩
  · intro T' hle
    have hnlt : ¬ T < T' := not_lt_of_ge hle
    simp [updateEpisodePlayedAt, playedAtStep, h, hnlt]
  · intro T' hlt
    constructor
    · simp [updateEpisodePlayedAt, playedAtStep, h, hlt]
    · simp [assocFind_setPlayedAt, h]
  · intro entries
    exact foldl_playedAtStep_mono entries (st, ⟨0, 0⟩) u T h

theorem updateEpisodePlayedAt_monotone_witness :
    updateEpisodePlayedAt [("ep-1", some "2024-09-15T18:00:00.000Z")]
        [⟨"ep-1", "2024-03-01T10:00:00.000Z"⟩]
      = ([("ep-1", some "2024-09-15T18:00:00.000Z")], ⟨0, 1⟩) ∧
    updateEpisodePlayedAt [("ep-1", some "2024-09-15T18:00:00.000Z")]
        [⟨"ep-1", "2024-12-01T00:00:00.000Z"⟩]
      = (setPlayedAt [("ep-1", some "2024-09-15T18:00:00.000Z")] "ep-1"
          "2024-12-01T00:00:00.000Z", ⟨1, 0⟩) := by
  have h := updateEpisodePlayedAt_monotone [("ep-1", some "2024-09-15T18:00:00.000Z")]
    "ep-1" "2024-09-15T18:00:00.000Z" (by decide)
  exact ⟨h.1 "2024-03-01T10:00:00.000Z" (String.le_iff_toList_le.mpr (by decide)),
    (h.2.1 "2024-12-01T00:00:00.000Z" (String.lt_iff_toList_lt.mpr (by decide))).1⟩

theorem playedAtStep_counts (acc : EpisodeStore × PlayedAtResult) (e : HistoryEntry) :
    (playedAtStep acc e).2.updated + (playedAtStep acc e).2.skipped =
      acc.2.updated + acc.2.skipped + 1 := by
  unfold playedAtStep
  cases hfind : assocFind acc.1 e.uuid with
  | none => simp; omega
  | some w =>
    cases w with
    | none => simp; omega
    | some t => by_cases hlt : t < e.played_at <;> simp [hlt] <;> omega

theorem foldl_playedAtStep_counts (entries : List HistoryEntry) :
    ∀ acc : EpisodeStore × PlayedAtResult,
      (entries.foldl playedAtStep acc).2.updated + (entries.foldl playedAtStep acc).2.skipped =
        acc.2.updated + acc.2.skipped + entries.length := by
  induction entries with
  | nil => intro acc; simp
  | cons e es ih =>
    intro acc
    have h1 := playedAtStep_counts acc e
    have h2 := ih (playedAtStep acc e)
    simp only [List.foldl_cons, List.length_cons] at *
    omega

/-- C2: every candidate is counted exactly once (updated + skipped equals the
number of candidates), the empty input returns zero counts and an unchanged
store, a single candidate is updated exactly when the episode exists with a
null or strictly earlier stored played_at and is skipped otherwise (leaving
the store unchanged), and an episode id not present in the store is always
skipped. -/
theorem updateEpisodePlayedAt_classification (st : EpisodeStore) (entries : List HistoryEntry) :
    (updateEpisodePlayedAt st [] = (st, ⟨0, 0⟩)) ∧
    ((updateEpisodePlayedAt st entries).2.updated +
      (updateEpisodePlayedAt st entries).2.skipped = entries.length) ∧
    (∀ e : HistoryEntry, specWouldUpdate st e →
      (updateEpisodePlayedAt st [e]).2 = ⟨1, 0⟩) ∧
    (∀ e : HistoryEntry, ¬ specWouldUpdate st e →
      updateEpisodePlayedAt st [e] = (st, ⟨0, 1⟩)) ∧
    (∀ e : HistoryEntry, assocFind st e.uuid = none →
      (updateEpisodePlayedAt st [e]).2 = ⟨0, 1⟩) := by
  refine ⟨by simp [updateEpisodePlayedAt], ?_, ?_, ?_, ?_⟩
  · have h := foldl_playedAtStep_counts entries (st, ⟨0, 0⟩)
    simpa [updateEpisodePlayedAt] using h
  · rintro e ⟨w, hw, hcase⟩
    rcases hcase with hnull | ⟨t, ht, hlt⟩
    · subst hnull; simp [updateEpisodePlayedAt, playedAtStep, hw]
    · subst ht; simp [updateEpisodePlayedAt, playedAtStep, hw, hlt]
  · intro e hnot
    unfold updateEpisodePlayedAt
    simp only [List.foldl_cons, List.foldl_nil]
    unfold playedAtStep
    cases hfind : assocFind st e.uuid with
    | none => simp
    | some w =>
      cases w with
      | none => exact absurd ⟨none, hfind, Or.inl rfl⟩ hnot
      | some t =>
        have hnlt : ¬ t < e.played_at := fun hlt =>
          hnot ⟨some t, hfind, Or.inr ⟨t, rfl, hlt⟩⟩
        simp [hnlt]
  · intro e hfind
    simp [updateEpisodePlayedAt, playedAtStep, hfind]

theorem updateEpisodePlayedAt_classification_witness :
    ((updateEpisodePlayedAt [("ep-1", none), ("ep-2", some "2024-01-01T00:00:00.000Z")]
        [⟨"ep-1", "2024-06-15T12:00:00.000Z"⟩, ⟨"ep-2", "2024-06-15T12:00:00.000Z"⟩,
         ⟨"ep-missing", "2024-06-15T12:00:00.000Z"⟩]).2.updated +
     (updateEpisodePlayedAt [("ep-1", none), ("ep-2", some "2024-01-01T00:00:00.000Z")]
        [⟨"ep-1", "2024-06-15T12:00:00.000Z"⟩, ⟨"ep-2", "2024-06-15T12:00:00.000Z"⟩,
         ⟨"ep-missing", "2024-06-15T12:00:00.000Z"⟩]).2.skipped = 3) ∧
    ((updateEpisodePlayedAt [("ep-1", none)] [⟨"ep-1", "2024-06-15T12:00:00.000Z"⟩]).2
      = ⟨1, 0⟩) ∧
    ((updateEpisodePlayedAt [("ep-1", none)] [⟨"ep-missing", "2024-06-15T12:00:00.000Z"⟩]).2
      = ⟨0, 1⟩) := by
  refine ⟨(updateEpisodePlayedAt_classification _ _).2.1, ?_, ?_⟩
  · exact (updateEpisodePlayedAt_classification
      [("ep-1", none)] []).2.2.1 ⟨"ep-1", "2024-06-15T12:00:00.000Z"⟩
      ⟨none, by decide, Or.inl rfl⟩
  · exact (updateEpisodePlayedAt_classification
      [("ep-1", none)] []).2.2.2.2 ⟨"ep-missing", "2024-06-15T12:00:00.000Z"⟩ (by decide)

/-! ## History merger (getListenHistory, src/src/history.ts) -/

/-- A remote history change record, from src/src/history.ts (HistoryYearChange). -/
structure HistoryYearChange where
  action : Nat
  episode : String
  modifiedAt : String
  deriving Repr, DecidableEq

/-- The history payload of a year response, mirroring the nested
history object with its changes array. -/
structure HistoryYearChanges where
  changes : List HistoryYearChange
  deriving Repr, DecidableEq

/-- A year response, from src/src/history.ts (HistoryYearResponse); both
fields are optional in the source. -/
structure HistoryYearResponse where
  count : Option Nat := none
  history : Option HistoryYearChanges := none
  deriving Repr, DecidableEq

/-- Outcome of one remote HTTP call: a parsed body on success, or the
non-success HTTP status code on failure. -/
inductive FetchOutcome where
  | success : HistoryYearResponse → FetchOutcome
  | failure : Nat → FetchOutcome
  deriving Repr, DecidableEq

/-- The remote history endpoint, as a function of the year and the
count-only flag of the request body. -/
abbrev Remote := Nat → Bool → FetchOutcome

/-- From src/src/history.ts fetchHistoryYear: a non-ok response raises an
error naming the year and the HTTP status code. -/
def fetchHistoryYear (remote : Remote) (year : Nat) (countOnly : Bool) :
    Except String HistoryYearResponse :=
  match remote year countOnly with
  | .success r => .ok r
  | .failure status =>
    .error ("Failed to fetch history for " ++ toString year ++ ": " ++ toString status)

/-- From src/src/history.ts: the changes of a full response, with a missing
history.changes field treated as the empty list. -/
def yearChanges (r : HistoryYearResponse) : List HistoryYearChange :=
  match r.history with
  | some h => h.changes
  | none => []

/-- From src/src/history.ts: the play actions of a full response, keeping
only records with action equal to 1. -/
def playActionsOf (r : HistoryYearResponse) : List HistoryYearChange :=
  (yearChanges r).filter (fun c => c.action == 1)

/-- From src/src/history.ts: folding the play actions of one year into the
seen map, inserting an episode only when it has not been seen before. -/
def addPlays (seen : List (String × String)) (plays : List HistoryYearChange) :
    List (String × String) :=
  plays.foldl
    (fun s c => if (assocFind s c.episode).isSome then s else s ++ [(c.episode, c.modifiedAt)])
    seen

/-- The years scanned by getListenHistory: the current calendar year down to
2010, most recent first. -/
def descYears (current : Nat) : List Nat :=
  (List.range' 2010 (current + 1 - 2010)).reverse

/-- From src/src/history.ts getListenHistory: the main loop over the years.
For each year a count query is issued; a zero count stops the loop, while a
non-zero count triggers a full query whose play actions are merged into the
seen map. The second component records the queries issued as pairs of year
and count-only flag. -/
def historyGo (remote : Remote) :
    List Nat → List (String × String) →
      Except String (List (String × String)) × List (Nat × Bool)
  | [], seen => (.ok seen, [])
  | year :: rest, seen =>
    match fetchHistoryYear remote year true with
    | .error e => (.error e, [(year, true)])
    | .ok countRes =>
      if countRes.count.getD 0 = 0 then (.ok seen, [(year, true)])
      else
        match fetchHistoryYear remote year false with
        | .error e => (.error e, [(year, true), (year, false)])
        | .ok fullRes =>
          let res := historyGo remote rest (addPlays seen (playActionsOf fullRes))
          (res.1, (year, true) :: (year, false) :: res.2)

/-- From src/src/history.ts getListenHistory: run the year loop starting at
the current calendar year and materialize the seen map in insertion order,
converting each kept epoch-millisecond string through the Date-to-ISO
conversion toIso. -/
def getListenHistory (remote : Remote) (currentYear : Nat) (toIso : String → String) :
    Except String (List HistoryEntry) :=
  match (historyGo remote (descYears currentYear) []).1 with
  | .error e => .error e
  | .ok seen => .ok (seen.map (fun p => ⟨p.1, toIso p.2⟩))

/-- Spec-side description of the processed play records: the concatenation,
in newest-year-first iteration order, of the play actions of every year the
loop fully processes (stopping at the first zero count). -/
def specProcessedPlays (remote : Remote) : List Nat → Except String (List HistoryYearChange)
  | [] => .ok []
  | year :: rest =>
    match fetchHistoryYear remote year true with
    | .error e => .error e
    | .ok countRes =>
      if countRes.count.getD 0 = 0 then .ok []
      else
        match fetchHistoryYear remote year false with
        | .error e => .error e
        | .ok fullRes =>
          (specProcessedPlays remote rest).map (fun tailPlays => playActionsOf fullRes ++ tailPlays)

theorem addPlays_append (seen : List (String × String)) (a b : List HistoryYearChange) :
    addPlays seen (a ++ b) = addPlays (addPlays seen a) b := by
  simp [addPlays, List.foldl_append]

theorem historyGo_fst (remote : Remote) (ys : List Nat) :
    ∀ seen, (historyGo remote ys seen).1 =
      (specProcessedPlays remote ys).map (addPlays seen) := by
  induction ys with
  | nil => intro seen; simp [historyGo, specProcessedPlays, Except.map, addPlays]
  | cons year rest ih =>
    intro seen
    cases hf : fetchHistoryYear remote year true with
    | error e => simp [historyGo, specProcessedPlays, hf, Except.map]
    | ok countRes =>
      by_cases hc : countRes.count.getD 0 = 0
      · simp [historyGo, specProcessedPlays, hf, hc, Except.map, addPlays]
      · cases hf2 : fetchHistoryYear remote year false with
        | error e => simp [historyGo, specProcessedPlays, hf, hc, hf2, Except.map]
        | ok fullRes =>
          simp only [historyGo, specProcessedPlays, hf, hc, hf2, if_neg]
          rw [ih]
          cases hrec : specProcessedPlays remote rest with
          | error e => simp [Except.map]
          | ok plays => simp [Except.map, addPlays_append]

theorem assocFind_append {β : Type} (l₁ l₂ : List (String × β)) (k : String) :
    assocFind (l₁ ++ l₂) k =
      match assocFind l₁ k with
      | some v => some v
      | none => assocFind l₂ k := by
  induction l₁ with
  | nil => simp [assocFind]
  | cons p rest ih =>
    by_cases h : p.1 = k
    · simp [assocFind, h]
    · simp [assocFind, h, ih]

theorem assocFind_addPlays (plays : List HistoryYearChange) :
    ∀ (seen : List (String × String)) (u : String),
      assocFind (addPlays seen plays) u =
        match assocFind seen u with
        | some v => some v
        | none => (plays.find? (fun c => c.episode == u)).map HistoryYearChange.modifiedAt := by
  induction plays with
  | nil =>
    intro seen u
    cases h : assocFind seen u <;> simp [addPlays, h]
  | cons c cs ih =>
    intro seen u
    have hstep : addPlays seen (c :: cs) =
        addPlays (if (assocFind seen c.episode).isSome then seen
                  else seen ++ [(c.episode, c.modifiedAt)]) cs := rfl
    rw [hstep]
    by_cases h1 : (assocFind seen c.episode).isSome
    · rw [if_pos h1, ih]
      by_cases h2 : c.episode = u
      · obtain ⟨v, hv⟩ := Option.isSome_iff_exists.mp h1
        rw [h2] at hv
        simp [hv]
      · have hbeq : (c.episode == u) = false := by simp [h2]
        rw [List.find?_cons, hbeq]
    · rw [if_neg h1, ih]
      have hnone : assocFind seen c.episode = none := Option.not_isSome_iff_eq_none.mp h1
      rw [assocFind_append, List.find?_cons]
      by_cases h2 : c.episode = u
      · have hbeq : (c.episode == u) = true := by simp [h2]
        rw [hbeq, ← h2, hnone]
        simp [assocFind]
      · have hbeq : (c.episode == u) = false := by simp [h2]
        rw [hbeq]
        have hfind1 : assocFind [(c.episode, c.modifiedAt)] u = none := by
          simp [assocFind, h2]
        cases h : assocFind seen u <;> simp [h, hfind1]

theorem assocFind_eq_none_iff {β : Type} (l : List (String × β)) (k : String) :
    assocFind l k = none ↔ k ∉ l.map Prod.fst := by
  induction l with
  | nil => simp [assocFind]
  | cons p rest ih =>
    by_cases h : p.1 = k
    · simp [assocFind, h]
    · simp only [assocFind, h, if_false, List.map_cons, List.mem_cons]
      rw [ih]
      constructor
      · intro hk hor
        rcases hor with h1 | h1
        · exact h h1.symm
        · exact hk h1
      · intro hk hmem
        exact hk (Or.inr hmem)

theorem addPlays_nodup (plays : List HistoryYearChange) :
    ∀ seen : List (String × String), (seen.map Prod.fst).Nodup →
      ((addPlays seen plays).map Prod.fst).Nodup := by
  induction plays with
  | nil => intro seen h; simpa [addPlays] using h
  | cons c cs ih =>
    intro seen h
    have hstep : addPlays seen (c :: cs) =
        addPlays (if (assocFind seen c.episode).isSome then seen
                  else seen ++ [(c.episode, c.modifiedAt)]) cs := rfl
    rw [hstep]
    by_cases h1 : (assocFind seen c.episode).isSome
    · rw [if_pos h1]; exact ih seen h
    · rw [if_neg h1]
      refine ih _ ?_
      have hnone : assocFind seen c.episode = none := Option.not_isSome_iff_eq_none.mp h1
      have hnotin := (assocFind_eq_none_iff seen c.episode).mp hnone
      simp only [List.map_append, List.map_cons, List.map_nil]
      refine List.Nodup.append h (List.nodup_singleton _) ?_
      intro x hx hmem
      rw [List.mem_singleton] at hmem
      exact hnotin (hmem ▸ hx)

theorem assocFind_map_value (f : String → String) (l : List (String × String)) (k : String) :
    assocFind (l.map (fun p => (p.1, f p.2))) k = (assocFind l k).map f := by
  induction l with
  | nil => simp [assocFind]
  | cons p rest ih =>
    by_cases h : p.1 = k
    · simp [assocFind, h]
    · simp [assocFind, h, ih]

/-- C3: a successful run of getListenHistory has exactly one merged entry per
distinct episode id among the processed play actions, and the timestamp kept
for an episode is the one of its first occurrence in newest-year-first
processing order (both across years and within the returned order of a
single year). -/
theorem getListenHistory_firstEncounterWins (remote : Remote) (currentYear : Nat)
    (toIso : String → String) (entries : List HistoryEntry)
    (h : getListenHistory remote currentYear toIso = .ok entries) :
    ∃ plays, specProcessedPlays remote (descYears currentYear) = .ok plays ∧
      (entries.map HistoryEntry.uuid).Nodup ∧
      ∀ u, assocFind (entries.map (fun e => (e.uuid, e.played_at))) u =
        (plays.find? (fun c => c.episode == u)).map (fun c => toIso c.modifiedAt) := by
  unfold getListenHistory at h
  rw [historyGo_fst] at h
  cases hrec : specProcessedPlays remote (descYears currentYear) with
  | error e => rw [hrec] at h; simp [Except.map] at h
  | ok plays =>
    rw [hrec] at h
    simp only [Except.map] at h
    have hentries : entries = (addPlays [] plays).map (fun p => (⟨p.1, toIso p.2⟩ : HistoryEntry)) :=
      (Except.ok.inj h).symm
    refine ⟨plays, rfl, ?_, ?_⟩
    · rw [hentries]
      have : ((addPlays [] plays).map
          (fun p => (⟨p.1, toIso p.2⟩ : HistoryEntry))).map HistoryEntry.uuid =
          (addPlays [] plays).map Prod.fst := by
        simp [List.map_map]
      rw [this]
      exact addPlays_nodup plays [] (by simp)
    · intro u
      rw [hentries]
      have hmaps : ((addPlays [] plays).map
          (fun p => (⟨p.1, toIso p.2⟩ : HistoryEntry))).map (fun e => (e.uuid, e.played_at)) =
          (addPlays [] plays).map (fun p => (p.1, toIso p.2)) := by
        simp [List.map_map]
      rw [hmaps, assocFind_map_value, assocFind_addPlays]
      simp [assocFind, Option.map_map]
      rfl

/-- A remote history endpoint used to exercise the merger: 2024 and 2023
both report one entry and return a play record for the same episode, every
older year reports zero entries. -/
def remoteMergeW : Remote := fun year countOnly =>
  if year = 2024 then
    (if countOnly then .success { count := some 1 }
     else .success { history := some ⟨[⟨1, "ep-1", "1700000000000"⟩]⟩ })
  else if year = 2023 then
    (if countOnly then .success { count := some 1 }
     else .success { history := some ⟨[⟨1, "ep-1", "1600000000000"⟩]⟩ })
  else .success { count := some 0 }

theorem getListenHistory_firstEncounterWins_witness :
    ∃ plays, specProcessedPlays remoteMergeW (descYears 2024) = .ok plays ∧
      (([⟨"ep-1", "1700000000000"⟩] : List HistoryEntry).map HistoryEntry.uuid).Nodup ∧
      ∀ u, assocFind (([⟨"ep-1", "1700000000000"⟩] : List HistoryEntry).map
          (fun e => (e.uuid, e.played_at))) u =
        (plays.find? (fun c => c.episode == u)).map (fun c => (fun s => s) c.modifiedAt) :=
  getListenHistory_firstEncounterWins remoteMergeW 2024 (fun s => s)
    [⟨"ep-1", "1700000000000"⟩] rfl

theorem descYears_cons (c : Nat) (h : 2010 ≤ c) :
    descYears c = c :: descYears (c - 1) := by
  unfold descYears
  have h1 : c + 1 - 2010 = (c - 2010) + 1 := by omega
  have h2 : (c - 1) + 1 - 2010 = c - 2010 := by omega
  rw [h1, h2, List.range'_concat]
  have h3 : 2010 + (c - 2010) = c := by omega
  simp [h3]

/-- The query trace the spec predicts when the first empty year is y0: for
each year from y0 + d down to y0 + 1 a count query immediately followed by a
full query, then a final count query for y0 and nothing older. -/
def expectedTrace (y0 : Nat) : Nat → List (Nat × Bool)
  | 0 => [(y0, true)]
  | d + 1 => (y0 + d + 1, true) :: (y0 + d + 1, false) :: expectedTrace y0 d

theorem fetchHistoryYear_success (remote : Remote) (year : Nat) (countOnly : Bool)
    (r : HistoryYearResponse) (h : remote year countOnly = .success r) :
    fetchHistoryYear remote year countOnly = .ok r := by
  unfold fetchHistoryYear; rw [h]

theorem fetchHistoryYear_failure (remote : Remote) (year : Nat) (countOnly : Bool)
    (status : Nat) (h : remote year countOnly = .failure status) :
    fetchHistoryYear remote year countOnly =
      .error ("Failed to fetch history for " ++ toString year ++ ": " ++ toString status) := by
  unfold fetchHistoryYear; rw [h]

theorem historyGo_cons_countFail (remote : Remote) (year : Nat) (rest : List Nat)
    (seen : List (String × String)) (e : String)
    (h1 : fetchHistoryYear remote year true = .error e) :
    historyGo remote (year :: rest) seen = (.error e, [(year, true)]) := by
  conv_lhs => unfold historyGo
  rw [h1]

theorem historyGo_cons_zeroCount (remote : Remote) (year : Nat) (rest : List Nat)
    (seen : List (String × String)) (r : HistoryYearResponse)
    (h1 : fetchHistoryYear remote year true = .ok r) (hc : r.count.getD 0 = 0) :
    historyGo remote (year :: rest) seen = (.ok seen, [(year, true)]) := by
  conv_lhs => unfold historyGo
  rw [h1]
  simp [hc]

theorem historyGo_cons_fullFail (remote : Remote) (year : Nat) (rest : List Nat)
    (seen : List (String × String)) (r : HistoryYearResponse) (e : String)
    (h1 : fetchHistoryYear remote year true = .ok r) (hc : r.count.getD 0 ≠ 0)
    (h2 : fetchHistoryYear remote year false = .error e) :
    historyGo remote (year :: rest) seen = (.error e, [(year, true), (year, false)]) := by
  conv_lhs => unfold historyGo
  rw [h1, h2]
  simp [hc]

theorem historyGo_cons_step (remote : Remote) (year : Nat) (rest : List Nat)
    (seen : List (String × String)) (r fullRes : HistoryYearResponse)
    (h1 : fetchHistoryYear remote year true = .ok r) (hc : r.count.getD 0 ≠ 0)
    (h2 : fetchHistoryYear remote year false = .ok fullRes) :
    historyGo remote (year :: rest) seen =
      ((historyGo remote rest (addPlays seen (playActionsOf fullRes))).1,
       (year, true) :: (year, false) ::
         (historyGo remote rest (addPlays seen (playActionsOf fullRes))).2) := by
  conv_lhs => unfold historyGo
  rw [h1, h2]
  simp [hc]

theorem historyGo_cons_step_fst (remote : Remote) (year : Nat) (rest : List Nat)
    (seen : List (String × String)) (r fullRes : HistoryYearResponse)
    (h1 : fetchHistoryYear remote year true = .ok r) (hc : r.count.getD 0 ≠ 0)
    (h2 : fetchHistoryYear remote year false = .ok fullRes) :
    (historyGo remote (year :: rest) seen).1 =
      (historyGo remote rest (addPlays seen (playActionsOf fullRes))).1 := by
  rw [historyGo_cons_step remote year rest seen r fullRes h1 hc h2]

theorem historyGo_cons_step_snd (remote : Remote) (year : Nat) (rest : List Nat)
    (seen : List (String × String)) (r fullRes : HistoryYearResponse)
    (h1 : fetchHistoryYear remote year true = .ok r) (hc : r.count.getD 0 ≠ 0)
    (h2 : fetchHistoryYear remote year false = .ok fullRes) :
    (historyGo remote (year :: rest) seen).2 =
      (year, true) :: (year, false) ::
        (historyGo remote rest (addPlays seen (playActionsOf fullRes))).2 := by
  rw [historyGo_cons_step remote year rest seen r fullRes h1 hc h2]

theorem historyGo_trace_aux (remote : Remote) (y0 : Nat) (h2010 : 2010 ≤ y0)
    (hz : ∃ r, remote y0 true = .success r ∧ r.count.getD 0 = 0) :
    ∀ (d : Nat) (seen : List (String × String)),
      (∀ y, y0 < y → y ≤ y0 + d → ∃ r, remote y true = .success r ∧ r.count.getD 0 ≠ 0) →
      (∀ y, y0 < y → y ≤ y0 + d → ∃ r, remote y false = .success r) →
      (historyGo remote (descYears (y0 + d)) seen).2 = expectedTrace y0 d := by
  intro d
  induction d with
  | zero =>
    intro seen _ _
    obtain ⟨r, hr, hc⟩ := hz
    rw [Nat.add_zero, descYears_cons y0 h2010,
      historyGo_cons_zeroCount remote y0 (descYears (y0 - 1)) seen r
        (fetchHistoryYear_success remote y0 true r hr) hc]
    rfl
  | succ d ih =>
    intro seen hnz hfull
    have hcons := descYears_cons (y0 + d + 1) (by omega)
    have hsub : y0 + d + 1 - 1 = y0 + d := by omega
    rw [show y0 + (d + 1) = y0 + d + 1 from rfl, hcons, hsub]
    obtain ⟨r, hr, hc⟩ := hnz (y0 + d + 1) (by omega) (by omega)
    obtain ⟨rf, hrf⟩ := hfull (y0 + d + 1) (by omega) (by omega)
    rw [historyGo_cons_step_snd remote (y0 + d + 1) (descYears (y0 + d)) seen r rf
      (fetchHistoryYear_success remote (y0 + d + 1) true r hr) hc
      (fetchHistoryYear_success remote (y0 + d + 1) false rf hrf)]
    rw [ih (addPlays seen (playActionsOf rf))
      (fun y hy1 hy2 => hnz y hy1 (by omega)) (fun y hy1 hy2 => hfull y hy1 (by omega))]
    rw [expectedTrace]

/-- C4: getListenHistory scans years newest first issuing one count query per
year and one full query per non-empty year; at the first year reporting a
zero count it stops entirely, so the trace of issued queries is exactly the
count and full query pairs for the non-empty years followed by the single
count query of the stopping year, with no full query for that year and no
query at all for any older year. -/
theorem getListenHistory_stopsAtEmptyYear (remote : Remote) (c y0 : Nat)
    (h2010 : 2010 ≤ y0) (hle : y0 ≤ c)
    (hnz : ∀ y, y0 < y → y ≤ c → ∃ r, remote y true = .success r ∧ r.count.getD 0 ≠ 0)
    (hfull : ∀ y, y0 < y → y ≤ c → ∃ r, remote y false = .success r)
    (hz : ∃ r, remote y0 true = .success r ∧ r.count.getD 0 = 0) :
    (historyGo remote (descYears c) []).2 = expectedTrace y0 (c - y0) := by
  have hc : y0 + (c - y0) = c := by omega
  have := historyGo_trace_aux remote y0 h2010 hz (c - y0) []
    (fun y hy1 hy2 => hnz y hy1 (by omega))
    (fun y hy1 hy2 => hfull y hy1 (by omega))
  rw [hc] at this
  exact this

theorem getListenHistory_stopsAtEmptyYear_witness :
    (historyGo remoteMergeW (descYears 2024) []).2 = expectedTrace 2022 (2024 - 2022) := by
  refine getListenHistory_stopsAtEmptyYear remoteMergeW 2024 2022 (by omega) (by omega)
    ?_ ?_ ⟨{ count := some 0 }, rfl, by decide⟩
  · intro y hy1 hy2
    have hy : y = 2023 ∨ y = 2024 := by omega
    rcases hy with rfl | rfl
    · exact ⟨{ count := some 1 }, rfl, by decide⟩
    · exact ⟨{ count := some 1 }, rfl, by decide⟩
  · intro y hy1 hy2
    have hy : y = 2023 ∨ y = 2024 := by omega
    rcases hy with rfl | rfl
    · exact ⟨{ history := some ⟨[⟨1, "ep-1", "1600000000000"⟩]⟩ }, rfl⟩
    · exact ⟨{ history := some ⟨[⟨1, "ep-1", "1700000000000"⟩]⟩ }, rfl⟩

set_option maxRecDepth 2000 in
theorem historyGo_error_aux (remote : Remote) (y status : Nat) (h2010 : 2010 ≤ y)
    (hfail : remote y true = .failure status ∨
      ((∃ r, remote y true = .success r ∧ r.count.getD 0 ≠ 0) ∧
        remote y false = .failure status)) :
    ∀ (d : Nat) (seen : List (String × String)),
      (∀ y', y < y' → y' ≤ y + d →
        (∃ r, remote y' true = .success r ∧ r.count.getD 0 ≠ 0) ∧
        ∃ r, remote y' false = .success r) →
      (historyGo remote (descYears (y + d)) seen).1 =
        .error ("Failed to fetch history for " ++ toString y ++ ": " ++ toString status) := by
  intro d
  induction d with
  | zero =>
    intro seen _
    rw [Nat.add_zero, descYears_cons y h2010]
    rcases hfail with hcf | ⟨⟨r, hr, hc⟩, hff⟩
    · rw [historyGo_cons_countFail remote y (descYears (y - 1)) seen _
        (fetchHistoryYear_failure remote y true status hcf)]
    · rw [historyGo_cons_fullFail remote y (descYears (y - 1)) seen r _
        (fetchHistoryYear_success remote y true r hr) hc
        (fetchHistoryYear_failure remote y false status hff)]
  | succ d ih =>
    intro seen habove
    have hcons := descYears_cons (y + d + 1) (by omega)
    have hsub : y + d + 1 - 1 = y + d := by omega
    rw [show y + (d + 1) = y + d + 1 from rfl, hcons, hsub]
    obtain ⟨⟨r, hr, hc⟩, rf, hrf⟩ := habove (y + d + 1) (by omega) (by omega)
    rw [historyGo_cons_step_fst remote (y + d + 1) (descYears (y + d)) seen r rf
      (fetchHistoryYear_success remote (y + d + 1) true r hr) hc
      (fetchHistoryYear_success remote (y + d + 1) false rf hrf)]
    exact ih (addPlays seen (playActionsOf rf))
      (fun y' hy1 hy2 => habove y' hy1 (by omega))

/-- C9: if the first year reached whose remote fetch (count query, or full
query after a non-zero count) returns a non-success HTTP status, the whole
merge aborts with a fatal error naming that year and status code, and no
partial merged result is returned by getListenHistory. -/
theorem getListenHistory_fetchFailureAborts (remote : Remote) (c y status : Nat)
    (toIso : String → String) (h2010 : 2010 ≤ y) (hle : y ≤ c)
    (habove : ∀ y', y < y' → y' ≤ c →
      (∃ r, remote y' true = .success r ∧ r.count.getD 0 ≠ 0) ∧
      ∃ r, remote y' false = .success r)
    (hfail : remote y true = .failure status ∨
      ((∃ r, remote y true = .success r ∧ r.count.getD 0 ≠ 0) ∧
        remote y false = .failure status)) :
    getListenHistory remote c toIso =
      .error ("Failed to fetch history for " ++ toString y ++ ": " ++ toString status) := by
  have hc : y + (c - y) = c := by omega
  have herr := historyGo_error_aux remote y status h2010 hfail (c - y) []
    (fun y' hy1 hy2 => habove y' hy1 (by omega))
  rw [hc] at herr
  unfold getListenHistory
  rw [herr]

/-- A remote history endpoint whose full query for 2024 fails with HTTP
status 401 after the count query reported one entry. -/
def remoteFailW : Remote := fun year countOnly =>
  if year = 2024 then
    (if countOnly then .success { count := some 1 } else .failure 401)
  else .success { count := some 0 }

theorem getListenHistory_fetchFailureAborts_witness :
    getListenHistory remoteFailW 2024 (fun s => s) =
      .error ("Failed to fetch history for " ++ toString 2024 ++ ": " ++ toString 401) := by
  refine getListenHistory_fetchFailureAborts remoteFailW 2024 2024 401 (fun s => s)
    (by omega) (by omega) ?_ (Or.inr ⟨⟨{ count := some 1 }, rfl, by decide⟩, rfl⟩)
  intro y' hy1 hy2
  omega

/-! ## Set reconciler (savePodcasts in src/src/db.ts, saveBookmarks) -/

section FindBy

variable {ρ : Type} (key : ρ → String)

/-- First row of a table whose key column equals the given value. -/
def findBy : List ρ → String → Option ρ
  | [], _ => none
  | r :: rest, u => if key r = u then some r else findBy rest u

/-- INSERT OR REPLACE into a table keyed by the given column: replace the
row with the same key when one exists, append otherwise. -/
def upsertBy (db : List ρ) (row : ρ) : List ρ :=
  if db.any (fun r => key r == key row) then
    db.map (fun r => if key r = key row then row else r)
  else db ++ [row]

theorem findBy_eq_none_iff (db : List ρ) (u : String) :
    findBy key db u = none ↔ u ∉ db.map key := by
  induction db with
  | nil => simp [findBy]
  | cons r rest ih =>
    by_cases h : key r = u
    · simp [findBy, h]
    · simp only [findBy, h, if_false, List.map_cons, List.mem_cons]
      rw [ih]
      constructor
      · intro hk hor
        rcases hor with h1 | h1
        · exact h h1.symm
        · exact hk h1
      · intro hk hmem
        exact hk (Or.inr hmem)

theorem findBy_some_mem (db : List ρ) (u : String) (r0 : ρ)
    (h : findBy key db u = some r0) : r0 ∈ db ∧ key r0 = u := by
  induction db with
  | nil => simp [findBy] at h
  | cons r rest ih =>
    simp only [findBy] at h
    by_cases hk : key r = u
    · rw [if_pos hk] at h
      cases Option.some.inj h
      exact ⟨List.mem_cons_self _ _, hk⟩
    · rw [if_neg hk] at h
      obtain ⟨hm, hk0⟩ := ih h
      exact ⟨List.mem_cons_of_mem _ hm, hk0⟩

theorem findBy_append (l₁ l₂ : List ρ) (u : String) :
    findBy key (l₁ ++ l₂) u =
      match findBy key l₁ u with
      | some v => some v
      | none => findBy key l₂ u := by
  induction l₁ with
  | nil => simp [findBy]
  | cons r rest ih =>
    by_cases h : key r = u
    · simp [findBy, h]
    · simp [findBy, h, ih]

theorem findBy_replace_self (db : List ρ) (row : ρ) :
    findBy key (db.map (fun r => if key r = key row then row else r)) (key row) =
      (findBy key db (key row)).map (fun _ => row) := by
  induction db with
  | nil => simp [findBy]
  | cons r rest ih =>
    by_cases h : key r = key row
    · simp [findBy, h]
    · simp [findBy, h, ih]

theorem findBy_replace_ne (db : List ρ) (row : ρ) (u : String) (h : key row ≠ u) :
    findBy key (db.map (fun r => if key r = key row then row else r)) u =
      findBy key db u := by
  induction db with
  | nil => simp [findBy]
  | cons r rest ih =>
    simp only [List.map_cons, findBy]
    by_cases hk : key r = key row
    · rw [if_pos hk]
      have h1 : key r ≠ u := by rw [hk]; exact h
      rw [if_neg h, if_neg h1, ih]
    · rw [if_neg hk]
      by_cases hu : key r = u
      · rw [if_pos hu, if_pos hu]
      · rw [if_neg hu, if_neg hu, ih]

theorem findBy_upsertBy_self (db : List ρ) (row : ρ) :
    findBy key (upsertBy key db row) (key row) = some row := by
  unfold upsertBy
  by_cases hany : db.any (fun r => key r == key row) = true
  · rw [if_pos hany, findBy_replace_self]
    obtain ⟨r, hr, hkey⟩ := List.any_eq_true.mp hany
    have hsome : findBy key db (key row) ≠ none := by
      intro hnone
      rw [findBy_eq_none_iff] at hnone
      exact hnone (List.mem_map.mpr ⟨r, hr, by simpa using hkey⟩)
    cases hdb : findBy key db (key row) with
    | none => exact absurd hdb hsome
    | some v => simp
  · rw [if_neg hany, findBy_append]
    have hnone : findBy key db (key row) = none := by
      rw [findBy_eq_none_iff]
      intro hmem
      obtain ⟨r, hr, hkey⟩ := List.mem_map.mp hmem
      exact hany (List.any_eq_true.mpr ⟨r, hr, by simp [hkey]⟩)
    rw [hnone]
    simp [findBy]

theorem findBy_upsertBy_ne (db : List ρ) (row : ρ) (u : String) (h : key row ≠ u) :
    findBy key (upsertBy key db row) u = findBy key db u := by
  unfold upsertBy
  by_cases hany : db.any (fun r => key r == key row) = true
  · rw [if_pos hany]
    exact findBy_replace_ne key db row u h
  · rw [if_neg hany, findBy_append]
    cases hdb : findBy key db u with
    | some v => simp
    | none => simp [findBy, h]

theorem findBy_map_keepKey (f : ρ → ρ) (hf : ∀ r, key (f r) = key r)
    (db : List ρ) (u : String) :
    findBy key (db.map f) u = (findBy key db u).map f := by
  induction db with
  | nil => simp [findBy]
  | cons r rest ih =>
    by_cases h : key r = u
    · simp [findBy, hf, h]
    · simp [findBy, hf, h, ih]

theorem findBy_foldUpsert_notin {α : Type} (build : α → ρ) (items : List α) :
    ∀ (db : List ρ) (u : String), (∀ it ∈ items, key (build it) ≠ u) →
      findBy key (items.foldl (fun d it => upsertBy key d (build it)) db) u =
        findBy key db u := by
  induction items with
  | nil => intro db u _; rfl
  | cons it its ih =>
    intro db u h
    rw [List.foldl_cons,
      ih (upsertBy key db (build it)) u (fun j hj => h j (List.mem_cons_of_mem _ hj))]
    exact findBy_upsertBy_ne key db (build it) u (h it (List.mem_cons_self _ _))

theorem findBy_foldUpsert_mem {α : Type} (build : α → ρ) (items : List α) :
    ∀ (db : List ρ) (u : String), (∃ it ∈ items, key (build it) = u) →
      ∃ it, it ∈ items ∧ key (build it) = u ∧
        findBy key (items.foldl (fun d it => upsertBy key d (build it)) db) u =
          some (build it) := by
  induction items with
  | nil => intro db u h; simp at h
  | cons it its ih =>
    intro db u h
    by_cases hmem : ∃ j ∈ its, key (build j) = u
    · obtain ⟨j, hj, hkey, hfind⟩ := ih (upsertBy key db (build it)) u hmem
      exact ⟨j, List.mem_cons_of_mem _ hj, hkey, by rw [List.foldl_cons]; exact hfind⟩
    · have hit : key (build it) = u := by
        obtain ⟨j, hj, hkey⟩ := h
        rcases List.mem_cons.mp hj with rfl | hj2
        · exact hkey
        · exact absurd ⟨j, hj2, hkey⟩ hmem
      refine ⟨it, List.mem_cons_self _ _, hit, ?_⟩
      rw [List.foldl_cons,
        findBy_foldUpsert_notin key build its (upsertBy key db (build it)) u
          (fun j hj hk => hmem ⟨j, hj, hk⟩), ← hit]
      exact findBy_upsertBy_self key db (build it)

end FindBy

/-- A remote podcast record, from src/src/types.ts (Podcast); the opaque
settings payload is omitted. Only uuid matters to the reconciliation logic,
so the remaining fields carry neutral defaults for concrete instances. -/
structure Podcast where
  uuid : String
  title : String := ""
  author : String := ""
  description : String := ""
  url : String := ""
  slug : String := ""
  dateAdded : String := ""
  folderUuid : String := ""
  sortPosition : Nat := 0
  isPrivate : Bool := false
  autoStartFrom : Nat := 0
  autoSkipLast : Nat := 0
  episodesSortOrder : Nat := 0
  lastEpisodeUuid : String := ""
  lastEpisodePublished : String := ""
  unplayed : Bool := false
  lastEpisodePlayingStatus : Nat := 0
  lastEpisodeArchived : Bool := false
  descriptionHtml : String := ""
  deriving Repr, DecidableEq

/-- From src/src/types.ts (PodcastListResponse); the folders payload is
opaque and unused by savePodcasts, so it is not modelled. -/
structure PodcastListResponse where
  podcasts : List Podcast
  deriving Repr, DecidableEq

/-- A row of the podcasts table, with the columns written by the
INSERT OR REPLACE in savePodcasts plus deleted_at; raw_data holds the
remote record snapshot standing for its JSON serialization. -/
structure PodcastRow where
  uuid : String
  title : String
  author : String
  description : String
  url : String
  slug : String
  date_added : String
  folder_uuid : String
  sort_position : Nat
  is_private : Nat
  auto_start_from : Nat
  auto_skip_last : Nat
  episodes_sort_order : Nat
  last_episode_uuid : String
  last_episode_published : String
  updated_at : String
  deleted_at : Option String
  raw_data : Podcast
  deriving Repr, DecidableEq

/-- From src/src/db.ts savePodcasts: the row bound by the upsert statement,
with updated_at set to the current time and deleted_at cleared to NULL. -/
def podcastRowOf (now : String) (p : Podcast) : PodcastRow :=
  { uuid := p.uuid, title := p.title, author := p.author,
    description := p.description, url := p.url, slug := p.slug,
    date_added := p.dateAdded, folder_uuid := p.folderUuid,
    sort_position := p.sortPosition, is_private := if p.isPrivate then 1 else 0,
    auto_start_from := p.autoStartFrom, auto_skip_last := p.autoSkipLast,
    episodes_sort_order := p.episodesSortOrder,
    last_episode_uuid := p.lastEpisodeUuid,
    last_episode_published := p.lastEpisodePublished,
    updated_at := now, deleted_at := none, raw_data := p }

/-- From src/src/db.ts savePodcasts: the UPDATE that soft-deletes rows whose
uuid is not in the remote set and whose deleted_at is still NULL. -/
def markPodcast (now : String) (active : List String) (r : PodcastRow) : PodcastRow :=
  if r.uuid ∉ active ∧ r.deleted_at = none then { r with deleted_at := some now } else r

/-- From src/src/db.ts savePodcasts: upsert every remote podcast, then mark
stored podcasts absent from the remote set as deleted (all rows with NULL
deleted_at when the remote set is empty, mirroring the two SQL branches);
returns the resulting table and its total row count. The source collects
active uuids into a Set whose emptiness test and membership agree with this
list. -/
def savePodcasts (now : String) (db : List PodcastRow) (list : PodcastListResponse) :
    List PodcastRow × Nat :=
  let activeUuids := list.podcasts.map Podcast.uuid
  let db1 := list.podcasts.foldl (fun d p => upsertBy PodcastRow.uuid d (podcastRowOf now p)) db
  let db2 :=
    if activeUuids.length > 0 then
      db1.map (markPodcast now activeUuids)
    else
      db1.map (fun r => if r.deleted_at = none then { r with deleted_at := some now } else r)
  (db2, db2.length)

/-- A remote bookmark record, from src/src/types.ts (Bookmark). -/
structure Bookmark where
  bookmarkUuid : String
  podcastUuid : String := ""
  episodeUuid : String := ""
  time : Nat := 0
  title : String := ""
  createdAt : String := ""
  deriving Repr, DecidableEq

/-- From src/src/types.ts (BookmarkListResponse). -/
structure BookmarkListResponse where
  bookmarks : List Bookmark
  deriving Repr, DecidableEq

/-- A row of the bookmarks table: the bookmark fields plus updated_at,
deleted_at and the raw snapshot. -/
structure BookmarkRow where
  bookmark_uuid : String
  podcast_uuid : String
  episode_uuid : String
  time : Nat
  title : String
  created_at : String
  updated_at : String
  deleted_at : Option String
  raw_data : Bookmark
  deriving Repr, DecidableEq

/-- Modelled from the spec: the row bound by the saveBookmarks upsert
(saveBookmarks is in the db.ts generation missing from the snapshot; only
its tests in src/test/db.test.ts and its caller in src/unnamed/part_001
are present). All fields are refreshed and deleted_at is cleared. -/
def bookmarkRowOf (now : String) (b : Bookmark) : BookmarkRow :=
  { bookmark_uuid := b.bookmarkUuid, podcast_uuid := b.podcastUuid,
    episode_uuid := b.episodeUuid, time := b.time, title := b.title,
    created_at := b.createdAt, updated_at := now, deleted_at := none,
    raw_data := b }

/-- Modelled from the spec: the soft-delete step of saveBookmarks, marking a
stored bookmark absent from the remote set as deleted only if not already
soft-deleted. -/
def markBookmark (now : String) (active : List String) (r : BookmarkRow) : BookmarkRow :=
  if r.bookmark_uuid ∉ active ∧ r.deleted_at = none then
    { r with deleted_at := some now } else r

/-- Modelled from the spec: saveBookmarks applies the same reconciliation
mechanism as savePodcasts to the bookmarks table, keyed by bookmark_uuid. -/
def saveBookmarks (now : String) (db : List BookmarkRow) (list : BookmarkListResponse) :
    List BookmarkRow × Nat :=
  let activeUuids := list.bookmarks.map Bookmark.bookmarkUuid
  let db1 := list.bookmarks.foldl
    (fun d b => upsertBy BookmarkRow.bookmark_uuid d (bookmarkRowOf now b)) db
  let db2 :=
    if activeUuids.length > 0 then
      db1.map (markBookmark now activeUuids)
    else
      db1.map (fun r => if r.deleted_at = none then { r with deleted_at := some now } else r)
  (db2, db2.length)

theorem markPodcast_uuid (now : String) (active : List String) (r : PodcastRow) :
    (markPodcast now active r).uuid = r.uuid := by
  unfold markPodcast; split <;> rfl

theorem markBookmark_uuid (now : String) (active : List String) (r : BookmarkRow) :
    (markBookmark now active r).bookmark_uuid = r.bookmark_uuid := by
  unfold markBookmark; split <;> rfl

theorem savePodcasts_result (now : String) (db : List PodcastRow)
    (list : PodcastListResponse) :
    (savePodcasts now db list).1 =
      (list.podcasts.foldl (fun d p => upsertBy PodcastRow.uuid d (podcastRowOf now p)) db).map
        (markPodcast now (list.podcasts.map Podcast.uuid)) := by
  unfold savePodcasts
  by_cases h : (list.podcasts.map Podcast.uuid).length > 0
  · simp only [h, if_pos]
  · simp only [h, if_neg, not_false_eq_true]
    have hnil : list.podcasts.map Podcast.uuid = [] :=
      List.length_eq_zero.mp (by omega)
    rw [hnil]
    apply List.map_congr_left
    intro r _
    simp [markPodcast]

theorem saveBookmarks_result (now : String) (db : List BookmarkRow)
    (list : BookmarkListResponse) :
    (saveBookmarks now db list).1 =
      (list.bookmarks.foldl
        (fun d b => upsertBy BookmarkRow.bookmark_uuid d (bookmarkRowOf now b)) db).map
        (markBookmark now (list.bookmarks.map Bookmark.bookmarkUuid)) := by
  unfold saveBookmarks
  by_cases h : (list.bookmarks.map Bookmark.bookmarkUuid).length > 0
  · simp only [h, if_pos]
  · simp only [h, if_neg, not_false_eq_true]
    have hnil : list.bookmarks.map Bookmark.bookmarkUuid = [] :=
      List.length_eq_zero.mp (by omega)
    rw [hnil]
    apply List.map_congr_left
    intro r _
    simp [markBookmark]

theorem savePodcasts_find_notin (now : String) (db : List PodcastRow)
    (list : PodcastListResponse) (u : String)
    (hnot : u ∉ list.podcasts.map Podcast.uuid) :
    findBy PodcastRow.uuid (savePodcasts now db list).1 u =
      (findBy PodcastRow.uuid db u).map
        (markPodcast now (list.podcasts.map Podcast.uuid)) := by
  rw [savePodcasts_result,
    findBy_map_keepKey PodcastRow.uuid _ (markPodcast_uuid now _),
    findBy_foldUpsert_notin PodcastRow.uuid (podcastRowOf now) list.podcasts db u
      (fun p hp heq => hnot (List.mem_map.mpr ⟨p, hp, heq⟩))]

theorem savePodcasts_find_of_mem (now : String) (db : List PodcastRow)
    (list : PodcastListResponse) (u : String)
    (hmem : u ∈ list.podcasts.map Podcast.uuid) :
    ∃ r', findBy PodcastRow.uuid (savePodcasts now db list).1 u = some r' ∧
      r'.deleted_at = none := by
  obtain ⟨p, hp, hpu⟩ := List.mem_map.mp hmem
  obtain ⟨it, hit, hkey, hfind⟩ := findBy_foldUpsert_mem PodcastRow.uuid
    (podcastRowOf now) list.podcasts db u ⟨p, hp, hpu⟩
  refine ⟨markPodcast now (list.podcasts.map Podcast.uuid) (podcastRowOf now it), ?_, ?_⟩
  · rw [savePodcasts_result,
      findBy_map_keepKey PodcastRow.uuid _ (markPodcast_uuid now _), hfind]
    rfl
  · have hin : (podcastRowOf now it).uuid ∈ list.podcasts.map Podcast.uuid :=
      List.mem_map.mpr ⟨it, hit, rfl⟩
    unfold markPodcast
    rw [if_neg (fun hc => hc.1 hin)]
    rfl

theorem savePodcasts_row_deleted (now : String) (db : List PodcastRow)
    (list : PodcastListResponse) (r1 : PodcastRow)
    (h : r1 ∈ (savePodcasts now db list).1)
    (hnot : r1.uuid ∉ list.podcasts.map Podcast.uuid) : r1.deleted_at ≠ none := by
  rw [savePodcasts_result] at h
  obtain ⟨r0, hr0, rfl⟩ := List.mem_map.mp h
  rw [markPodcast_uuid] at hnot
  unfold markPodcast
  by_cases hc : r0.uuid ∉ list.podcasts.map Podcast.uuid ∧ r0.deleted_at = none
  · rw [if_pos hc]; simp
  · rw [if_neg hc]
    intro hdel
    exact hc ⟨hnot, hdel⟩

theorem saveBookmarks_find_notin (now : String) (db : List BookmarkRow)
    (list : BookmarkListResponse) (u : String)
    (hnot : u ∉ list.bookmarks.map Bookmark.bookmarkUuid) :
    findBy BookmarkRow.bookmark_uuid (saveBookmarks now db list).1 u =
      (findBy BookmarkRow.bookmark_uuid db u).map
        (markBookmark now (list.bookmarks.map Bookmark.bookmarkUuid)) := by
  rw [saveBookmarks_result,
    findBy_map_keepKey BookmarkRow.bookmark_uuid _ (markBookmark_uuid now _),
    findBy_foldUpsert_notin BookmarkRow.bookmark_uuid (bookmarkRowOf now) list.bookmarks db u
      (fun b hb heq => hnot (List.mem_map.mpr ⟨b, hb, heq⟩))]

theorem saveBookmarks_find_of_mem (now : String) (db : List BookmarkRow)
    (list : BookmarkListResponse) (u : String)
    (hmem : u ∈ list.bookmarks.map Bookmark.bookmarkUuid) :
    ∃ r', findBy BookmarkRow.bookmark_uuid (saveBookmarks now db list).1 u = some r' ∧
      r'.deleted_at = none := by
  obtain ⟨b, hb, hbu⟩ := List.mem_map.mp hmem
  obtain ⟨it, hit, hkey, hfind⟩ := findBy_foldUpsert_mem BookmarkRow.bookmark_uuid
    (bookmarkRowOf now) list.bookmarks db u ⟨b, hb, hbu⟩
  refine ⟨markBookmark now (list.bookmarks.map Bookmark.bookmarkUuid)
    (bookmarkRowOf now it), ?_, ?_⟩
  · rw [saveBookmarks_result,
      findBy_map_keepKey BookmarkRow.bookmark_uuid _ (markBookmark_uuid now _), hfind]
    rfl
  · have hin : (bookmarkRowOf now it).bookmark_uuid ∈
        list.bookmarks.map Bookmark.bookmarkUuid :=
      List.mem_map.mpr ⟨it, hit, rfl⟩
    unfold markBookmark
    rw [if_neg (fun hc => hc.1 hin)]
    rfl

theorem saveBookmarks_row_deleted (now : String) (db : List BookmarkRow)
    (list : BookmarkListResponse) (r1 : BookmarkRow)
    (h : r1 ∈ (saveBookmarks now db list).1)
    (hnot : r1.bookmark_uuid ∉ list.bookmarks.map Bookmark.bookmarkUuid) :
    r1.deleted_at ≠ none := by
  rw [saveBookmarks_result] at h
  obtain ⟨r0, hr0, rfl⟩ := List.mem_map.mp h
  rw [markBookmark_uuid] at hnot
  unfold markBookmark
  by_cases hc : r0.bookmark_uuid ∉ list.bookmarks.map Bookmark.bookmarkUuid ∧
      r0.deleted_at = none
  · rw [if_pos hc]; simp
  · rw [if_neg hc]
    intro hdel
    exact hc ⟨hnot, hdel⟩

/-- C6: the set reconciler, for podcasts and bookmarks alike: a stored row
whose id is absent from the remote set ends the pass with a non-null
deleted_at; a row whose id is present in the remote set ends the pass with
deleted_at null (so a delete and re-add round trip restores it); and
reconciling an empty remote set marks every stored row as deleted while
keeping every row in the store. -/
theorem reconcile_softDelete_restore :
    (∀ (now : String) (db : List PodcastRow) (list : PodcastListResponse)
        (u : String) (r : PodcastRow),
      findBy PodcastRow.uuid db u = some r → u ∉ list.podcasts.map Podcast.uuid →
      ∃ r', findBy PodcastRow.uuid (savePodcasts now db list).1 u = some r' ∧
        r'.deleted_at ≠ none) ∧
    (∀ (now : String) (db : List PodcastRow) (list : PodcastListResponse) (u : String),
      u ∈ list.podcasts.map Podcast.uuid →
      ∃ r', findBy PodcastRow.uuid (savePodcasts now db list).1 u = some r' ∧
        r'.deleted_at = none) ∧
    (∀ (now : String) (db : List PodcastRow),
      (∀ r' ∈ (savePodcasts now db { podcasts := [] }).1, r'.deleted_at ≠ none) ∧
      (savePodcasts now db { podcasts := [] }).1.map PodcastRow.uuid =
        db.map PodcastRow.uuid) ∧
    (∀ (now : String) (db : List BookmarkRow) (list : BookmarkListResponse)
        (u : String) (r : BookmarkRow),
      findBy BookmarkRow.bookmark_uuid db u = some r →
      u ∉ list.bookmarks.map Bookmark.bookmarkUuid →
      ∃ r', findBy BookmarkRow.bookmark_uuid (saveBookmarks now db list).1 u = some r' ∧
        r'.deleted_at ≠ none) ∧
    (∀ (now : String) (db : List BookmarkRow) (list : BookmarkListResponse) (u : String),
      u ∈ list.bookmarks.map Bookmark.bookmarkUuid →
      ∃ r', findBy BookmarkRow.bookmark_uuid (saveBookmarks now db list).1 u = some r' ∧
        r'.deleted_at = none) ∧
    (∀ (now : String) (db : List BookmarkRow),
      (∀ r' ∈ (saveBookmarks now db { bookmarks := [] }).1, r'.deleted_at ≠ none) ∧
      (saveBookmarks now db { bookmarks := [] }).1.map BookmarkRow.bookmark_uuid =
        db.map BookmarkRow.bookmark_uuid) := by
  refine ⟨?_, ?_, ?_, ?_, ?_, ?_⟩
  · intro now db list u r hfind hnot
    have hmap := savePodcasts_find_notin now db list u hnot
    rw [hfind] at hmap
    refine ⟨markPodcast now (list.podcasts.map Podcast.uuid) r, hmap, ?_⟩
    have hru : r.uuid = u := (findBy_some_mem PodcastRow.uuid db u r hfind).2
    unfold markPodcast
    by_cases hc : r.uuid ∉ list.podcasts.map Podcast.uuid ∧ r.deleted_at = none
    · rw [if_pos hc]; simp
    · rw [if_neg hc]
      intro hdel
      exact hc ⟨by rw [hru]; exact hnot, hdel⟩
  · intro now db list u hmem
    exact savePodcasts_find_of_mem now db list u hmem
  · intro now db
    have hres : (savePodcasts now db { podcasts := [] }).1 =
        db.map (markPodcast now ([] : List String)) := by
      rw [savePodcasts_result]
      rfl
    constructor
    · intro r' hr'
      rw [hres] at hr'
      obtain ⟨r0, hr0, rfl⟩ := List.mem_map.mp hr'
      unfold markPodcast
      by_cases hc : r0.uuid ∉ ([] : List String) ∧ r0.deleted_at = none
      · rw [if_pos hc]; simp
      · rw [if_neg hc]
        intro hdel
        exact hc ⟨List.not_mem_nil _, hdel⟩
    · rw [hres, List.map_map]
      apply List.map_congr_left
      intro r _
      exact markPodcast_uuid now _ r
  · intro now db list u r hfind hnot
    have hmap := saveBookmarks_find_notin now db list u hnot
    rw [hfind] at hmap
    refine ⟨markBookmark now (list.bookmarks.map Bookmark.bookmarkUuid) r, hmap, ?_⟩
    have hru : r.bookmark_uuid = u :=
      (findBy_some_mem BookmarkRow.bookmark_uuid db u r hfind).2
    unfold markBookmark
    by_cases hc : r.bookmark_uuid ∉ list.bookmarks.map Bookmark.bookmarkUuid ∧
        r.deleted_at = none
    · rw [if_pos hc]; simp
    · rw [if_neg hc]
      intro hdel
      exact hc ⟨by rw [hru]; exact hnot, hdel⟩
  · intro now db list u hmem
    exact saveBookmarks_find_of_mem now db list u hmem
  · intro now db
    have hres : (saveBookmarks now db { bookmarks := [] }).1 =
        db.map (markBookmark now ([] : List String)) := by
      rw [saveBookmarks_result]
      rfl
    constructor
    · intro r' hr'
      rw [hres] at hr'
      obtain ⟨r0, hr0, rfl⟩ := List.mem_map.mp hr'
      unfold markBookmark
      by_cases hc : r0.bookmark_uuid ∉ ([] : List String) ∧ r0.deleted_at = none
      · rw [if_pos hc]; simp
      · rw [if_neg hc]
        intro hdel
        exact hc ⟨List.not_mem_nil _, hdel⟩
    · rw [hres, List.map_map]
      apply List.map_congr_left
      intro r _
      exact markBookmark_uuid now _ r

theorem reconcile_softDelete_restore_witness :
    (∃ r', findBy PodcastRow.uuid
        (savePodcasts "t1" [podcastRowOf "t0" { uuid := "pod-1" }] { podcasts := [] }).1
        "pod-1" = some r' ∧ r'.deleted_at ≠ none) ∧
    (∃ r', findBy PodcastRow.uuid
        (savePodcasts "t2"
          (savePodcasts "t1" [podcastRowOf "t0" { uuid := "pod-1" }] { podcasts := [] }).1
          { podcasts := [{ uuid := "pod-1" }] }).1
        "pod-1" = some r' ∧ r'.deleted_at = none) ∧
    (∃ r', findBy BookmarkRow.bookmark_uuid
        (saveBookmarks "t1" [bookmarkRowOf "t0" { bookmarkUuid := "bm-1" }]
          { bookmarks := [] }).1
        "bm-1" = some r' ∧ r'.deleted_at ≠ none) ∧
    (∃ r', findBy BookmarkRow.bookmark_uuid
        (saveBookmarks "t2"
          (saveBookmarks "t1" [bookmarkRowOf "t0" { bookmarkUuid := "bm-1" }]
            { bookmarks := [] }).1
          { bookmarks := [{ bookmarkUuid := "bm-1" }] }).1
        "bm-1" = some r' ∧ r'.deleted_at = none) :=
  ⟨reconcile_softDelete_restore.1 "t1" [podcastRowOf "t0" { uuid := "pod-1" }]
      { podcasts := [] } "pod-1" (podcastRowOf "t0" { uuid := "pod-1" })
      (by decide) (by decide),
   reconcile_softDelete_restore.2.1 "t2"
      (savePodcasts "t1" [podcastRowOf "t0" { uuid := "pod-1" }] { podcasts := [] }).1
      { podcasts := [{ uuid := "pod-1" }] } "pod-1" (by decide),
   reconcile_softDelete_restore.2.2.2.1 "t1"
      [bookmarkRowOf "t0" { bookmarkUuid := "bm-1" }] { bookmarks := [] } "bm-1"
      (bookmarkRowOf "t0" { bookmarkUuid := "bm-1" }) (by decide) (by decide),
   reconcile_softDelete_restore.2.2.2.2.1 "t2"
      (saveBookmarks "t1" [bookmarkRowOf "t0" { bookmarkUuid := "bm-1" }]
        { bookmarks := [] }).1
      { bookmarks := [{ bookmarkUuid := "bm-1" }] } "bm-1" (by decide)⟩

/-- C7: re-applying the reconciler with the same remote set (at a later
current time) leaves every row's deleted_at unchanged on the second pass:
rows in the set stay at null, rows already soft-deleted keep their original
deletion timestamp. This holds for podcasts and bookmarks alike. -/
theorem reconcile_idempotent :
    (∀ (now1 now2 : String) (db : List PodcastRow) (list : PodcastListResponse)
        (u : String),
      (findBy PodcastRow.uuid
          (savePodcasts now2 (savePodcasts now1 db list).1 list).1 u).map
        PodcastRow.deleted_at =
      (findBy PodcastRow.uuid (savePodcasts now1 db list).1 u).map
        PodcastRow.deleted_at) ∧
    (∀ (now1 now2 : String) (db : List BookmarkRow) (list : BookmarkListResponse)
        (u : String),
      (findBy BookmarkRow.bookmark_uuid
          (saveBookmarks now2 (saveBookmarks now1 db list).1 list).1 u).map
        BookmarkRow.deleted_at =
      (findBy BookmarkRow.bookmark_uuid (saveBookmarks now1 db list).1 u).map
        BookmarkRow.deleted_at) := by
  constructor
  · intro now1 now2 db list u
    by_cases hmem : u ∈ list.podcasts.map Podcast.uuid
    · obtain ⟨r1, h1, hd1⟩ := savePodcasts_find_of_mem now1 db list u hmem
      obtain ⟨r2, h2, hd2⟩ :=
        savePodcasts_find_of_mem now2 (savePodcasts now1 db list).1 list u hmem
      rw [h1, h2, Option.map_some', Option.map_some', hd1, hd2]
    · have hstep := savePodcasts_find_notin now2 (savePodcasts now1 db list).1 list u hmem
      cases hdb1 : findBy PodcastRow.uuid (savePodcasts now1 db list).1 u with
      | none => rw [hstep, hdb1]; rfl
      | some r1 =>
        have hr1mem := findBy_some_mem PodcastRow.uuid _ u r1 hdb1
        have hdel : r1.deleted_at ≠ none :=
          savePodcasts_row_deleted now1 db list r1 hr1mem.1
            (by rw [hr1mem.2]; exact hmem)
        rw [hstep, hdb1]
        simp only [Option.map_some']
        congr 1
        unfold markPodcast
        rw [if_neg (fun hc => hdel hc.2)]
  · intro now1 now2 db list u
    by_cases hmem : u ∈ list.bookmarks.map Bookmark.bookmarkUuid
    · obtain ⟨r1, h1, hd1⟩ := saveBookmarks_find_of_mem now1 db list u hmem
      obtain ⟨r2, h2, hd2⟩ :=
        saveBookmarks_find_of_mem now2 (saveBookmarks now1 db list).1 list u hmem
      rw [h1, h2, Option.map_some', Option.map_some', hd1, hd2]
    · have hstep := saveBookmarks_find_notin now2 (saveBookmarks now1 db list).1 list u hmem
      cases hdb1 : findBy BookmarkRow.bookmark_uuid (saveBookmarks now1 db list).1 u with
      | none => rw [hstep, hdb1]; rfl
      | some r1 =>
        have hr1mem := findBy_some_mem BookmarkRow.bookmark_uuid _ u r1 hdb1
        have hdel : r1.deleted_at ≠ none :=
          saveBookmarks_row_deleted now1 db list r1 hr1mem.1
            (by rw [hr1mem.2]; exact hmem)
        rw [hstep, hdb1]
        simp only [Option.map_some']
        congr 1
        unfold markBookmark
        rw [if_neg (fun hc => hdel hc.2)]

/-! ## Episode delta classifier (processPodcastEpisodes, src/unnamed/part_001) -/

/-- A remote per-episode sync record, from src/src/types.ts
(EpisodeSyncItem); the opaque bookmarks payload is omitted. -/
structure EpisodeSyncItem where
  uuid : String
  playingStatus : Nat := 0
  playedUpTo : Nat := 0
  isDeleted : Bool := false
  starred : Bool := false
  duration : Nat := 0
  deselectedChapters : String := ""
  deriving Repr, DecidableEq

/-- A metadata cache entry, from src/src/types.ts (CacheEpisode). -/
structure CacheEpisode where
  uuid : String
  title : String := ""
  slug : String := ""
  url : String := ""
  file_type : String := ""
  file_size : Nat := 0
  duration : Nat := 0
  published : String := ""
  type : String := ""
  season : Nat := 0
  number : Nat := 0
  deriving Repr, DecidableEq

/-- An update record carrying only the mutable sync fields, as pushed in
processPodcastEpisodes for episodes already stored. -/
structure EpisodeUpdate where
  uuid : String
  playing_status : Nat
  played_up_to : Nat
  starred : Nat
  is_deleted : Nat
  deriving Repr, DecidableEq

/-- A full insert record combining sync fields with cache metadata, as
pushed in processPodcastEpisodes for new episodes. -/
structure NewEpisode where
  uuid : String
  url : String
  title : String
  podcast_title : String
  podcast_uuid : String
  published : String
  duration : Nat
  file_type : String
  size : String
  playing_status : Nat
  played_up_to : Nat
  is_deleted : Nat
  starred : Nat
  episode_type : String
  episode_season : Nat
  episode_number : Nat
  author : String
  slug : String
  podcast_slug : String
  deriving Repr, DecidableEq

/-- JavaScript Map.set: overwrite the value in place when the key exists,
append otherwise. -/
def mapSet {β : Type} (m : List (String × β)) (k : String) (v : β) : List (String × β) :=
  if (assocFind m k).isSome then m.map (fun p => if p.1 = k then (p.1, v) else p)
  else m ++ [(k, v)]

/-- From src/unnamed/part_001 processPodcastEpisodes: the cache map built
from the metadata episodes of the podcast. -/
def cacheMapOf (episodes : List CacheEpisode) : List (String × CacheEpisode) :=
  episodes.foldl (fun m e => mapSet m e.uuid e) []

/-- From src/unnamed/part_001 processPodcastEpisodes: the update record for
an existing episode. -/
def episodeUpdateOf (ep : EpisodeSyncItem) : EpisodeUpdate :=
  { uuid := ep.uuid, playing_status := ep.playingStatus,
    played_up_to := ep.playedUpTo,
    starred := if ep.starred then 1 else 0,
    is_deleted := if ep.isDeleted then 1 else 0 }

/-- From src/unnamed/part_001 processPodcastEpisodes: the insert record for
a new episode, resolving fields against its cache entry with the fallbacks
of the source (JavaScript or-defaults on duration, file type, file size,
episode type, season, number and slug). -/
def newEpisodeOf (podcastUuid podcastTitle podcastAuthor podcastSlug : String)
    (syncItem : EpisodeSyncItem) (cached : CacheEpisode) : NewEpisode :=
  { uuid := syncItem.uuid, url := cached.url, title := cached.title,
    podcast_title := podcastTitle, podcast_uuid := podcastUuid,
    published := cached.published,
    duration := if cached.duration = 0 then syncItem.duration else cached.duration,
    file_type := if cached.file_type = "" then "" else cached.file_type,
    size := if cached.file_size = 0 then "0" else toString cached.file_size,
    playing_status := syncItem.playingStatus, played_up_to := syncItem.playedUpTo,
    is_deleted := if syncItem.isDeleted then 1 else 0,
    starred := if syncItem.starred then 1 else 0,
    episode_type := if cached.type = "" then "full" else cached.type,
    episode_season := if cached.season = 0 then 0 else cached.season,
    episode_number := if cached.number = 0 then 0 else cached.number,
    author := podcastAuthor,
    slug := if cached.slug = "" then "" else cached.slug,
    podcast_slug := podcastSlug }

/-- From src/unnamed/part_001 processPodcastEpisodes: split the interacted
records into updates (already stored) and inserts (new, resolved against
the cache map; records without a cache entry are dropped). -/
def classifyInteracted (podcastUuid podcastTitle podcastAuthor podcastSlug : String)
    (interacted : List EpisodeSyncItem) (existingUuids : List String)
    (cacheEpisodes : List CacheEpisode) : List EpisodeUpdate × List NewEpisode :=
  let toUpdate := (interacted.filter (fun ep => existingUuids.contains ep.uuid)).map
    episodeUpdateOf
  let newSyncItems := interacted.filter (fun ep => !(existingUuids.contains ep.uuid))
  let cacheMap := cacheMapOf cacheEpisodes
  let toInsert := newSyncItems.filterMap (fun syncItem =>
    match assocFind cacheMap syncItem.uuid with
    | none => none
    | some cached =>
      some (newEpisodeOf podcastUuid podcastTitle podcastAuthor podcastSlug syncItem cached))
  (toUpdate, toInsert)

/-- From src/unnamed/part_001 processPodcastEpisodes: the pure
classification core. The interaction filter keeps records with
playingStatus > 0 or playedUpTo > 0; when no record shows interaction the
stage returns early without touching the store. -/
def classifyPodcastEpisodes (podcastUuid podcastTitle podcastAuthor podcastSlug : String)
    (syncEpisodes : List EpisodeSyncItem) (existingUuids : List String)
    (cacheEpisodes : List CacheEpisode) : List EpisodeUpdate × List NewEpisode :=
  let interacted := syncEpisodes.filter
    (fun ep => decide (0 < ep.playingStatus) || decide (0 < ep.playedUpTo))
  if interacted.length = 0 then ([], [])
  else classifyInteracted podcastUuid podcastTitle podcastAuthor podcastSlug
    interacted existingUuids cacheEpisodes

theorem classify_eq (pU pT pA pS : String) (es : List EpisodeSyncItem)
    (existing : List String) (cache : List CacheEpisode) :
    classifyPodcastEpisodes pU pT pA pS es existing cache =
      classifyInteracted pU pT pA pS
        (es.filter (fun ep => decide (0 < ep.playingStatus) || decide (0 < ep.playedUpTo)))
        existing cache := by
  unfold classifyPodcastEpisodes
  by_cases h :
      (es.filter (fun ep => decide (0 < ep.playingStatus) || decide (0 < ep.playedUpTo))).length = 0
  · rw [if_pos h, List.length_eq_zero.mp h]
    rfl
  · rw [if_neg h]

theorem classifyInteracted_drop (pU pT pA pS : String)
    (A B : List EpisodeSyncItem) (s : EpisodeSyncItem)
    (existing : List String) (cache : List CacheEpisode)
    (hnew : existing.contains s.uuid = false)
    (hnocache : assocFind (cacheMapOf cache) s.uuid = none) :
    classifyInteracted pU pT pA pS (A ++ s :: B) existing cache =
      classifyInteracted pU pT pA pS (A ++ B) existing cache := by
  unfold classifyInteracted
  simp only [List.filter_append, List.filter_cons, hnew, Bool.not_false,
    Bool.false_eq_true, if_false, if_true, List.filterMap_append, List.filterMap_cons,
    hnocache]

theorem classifyInteracted_update_mem (pU pT pA pS : String)
    (interacted : List EpisodeSyncItem) (existing : List String)
    (cache : List CacheEpisode) (upd : EpisodeUpdate)
    (h : upd ∈ (classifyInteracted pU pT pA pS interacted existing cache).1) :
    upd.uuid ∈ interacted.map EpisodeSyncItem.uuid := by
  unfold classifyInteracted at h
  simp only [List.mem_map, List.mem_filter] at h
  obtain ⟨ep, ⟨hep, _⟩, rfl⟩ := h
  exact List.mem_map.mpr ⟨ep, hep, rfl⟩

theorem classifyInteracted_insert_mem (pU pT pA pS : String)
    (interacted : List EpisodeSyncItem) (existing : List String)
    (cache : List CacheEpisode) (ins : NewEpisode)
    (h : ins ∈ (classifyInteracted pU pT pA pS interacted existing cache).2) :
    ins.uuid ∈ interacted.map EpisodeSyncItem.uuid := by
  unfold classifyInteracted at h
  obtain ⟨ep, hep, hmk⟩ := List.mem_filterMap.mp h
  rw [List.mem_filter] at hep
  cases hfind : assocFind (cacheMapOf cache) ep.uuid with
  | none => rw [hfind] at hmk; exact absurd hmk (by simp)
  | some cached =>
    rw [hfind] at hmk
    cases Option.some.inj hmk
    exact List.mem_map.mpr ⟨ep, hep.1, rfl⟩

/-- C8: an interacted sync record classified as an insert (id not stored)
whose id has no cache entry is dropped: the classification of the whole
batch equals the classification without that record (so nothing is written
for it and the remaining records are processed unchanged), and when its id
occurs in no other record, no update and no insert carries it. -/
theorem classify_dropsUncachedInsert (pU pT pA pS : String)
    (pre post : List EpisodeSyncItem) (s : EpisodeSyncItem)
    (existing : List String) (cache : List CacheEpisode)
    (hint : 0 < s.playingStatus ∨ 0 < s.playedUpTo)
    (hnew : existing.contains s.uuid = false)
    (hnocache : assocFind (cacheMapOf cache) s.uuid = none) :
    classifyPodcastEpisodes pU pT pA pS (pre ++ s :: post) existing cache =
      classifyPodcastEpisodes pU pT pA pS (pre ++ post) existing cache ∧
    (s.uuid ∉ (pre ++ post).map EpisodeSyncItem.uuid →
      (∀ upd ∈ (classifyPodcastEpisodes pU pT pA pS (pre ++ s :: post) existing cache).1,
        upd.uuid ≠ s.uuid) ∧
      (∀ ins ∈ (classifyPodcastEpisodes pU pT pA pS (pre ++ s :: post) existing cache).2,
        ins.uuid ≠ s.uuid)) := by
  have hsb : (decide (0 < s.playingStatus) || decide (0 < s.playedUpTo)) = true := by
    rcases hint with h | h <;> simp [h]
  have heq : classifyPodcastEpisodes pU pT pA pS (pre ++ s :: post) existing cache =
      classifyPodcastEpisodes pU pT pA pS (pre ++ post) existing cache := by
    rw [classify_eq, classify_eq, List.filter_append, List.filter_append,
      List.filter_cons, hsb, if_pos rfl]
    exact classifyInteracted_drop pU pT pA pS _ _ s existing cache hnew hnocache
  refine ⟨heq, ?_⟩
  intro hnot
  have hsub : ∀ u, u ∈ ((pre ++ post).filter
      (fun ep => decide (0 < ep.playingStatus) || decide (0 < ep.playedUpTo))).map
        EpisodeSyncItem.uuid → u ∈ (pre ++ post).map EpisodeSyncItem.uuid := by
    intro u hu
    obtain ⟨ep, hep, rfl⟩ := List.mem_map.mp hu
    exact List.mem_map.mpr ⟨ep, (List.mem_filter.mp hep).1, rfl⟩
  constructor
  · intro upd hupd
    rw [heq, classify_eq] at hupd
    intro habs
    exact hnot (habs ▸ hsub _ (classifyInteracted_update_mem pU pT pA pS _ existing cache upd hupd))
  · intro ins hins
    rw [heq, classify_eq] at hins
    intro habs
    exact hnot (habs ▸ hsub _ (classifyInteracted_insert_mem pU pT pA pS _ existing cache ins hins))

theorem classify_dropsUncachedInsert_witness :
    (classifyPodcastEpisodes "pod-1" "T" "A" "S"
        [⟨"ep-kept", 3, 3600, false, false, 3600, ""⟩,
         ⟨"ep-nocache", 3, 100, false, false, 100, ""⟩]
        [] [{ uuid := "ep-kept" }] =
      classifyPodcastEpisodes "pod-1" "T" "A" "S"
        [⟨"ep-kept", 3, 3600, false, false, 3600, ""⟩]
        [] [{ uuid := "ep-kept" }]) ∧
    (∀ upd ∈ (classifyPodcastEpisodes "pod-1" "T" "A" "S"
        [⟨"ep-kept", 3, 3600, false, false, 3600, ""⟩,
         ⟨"ep-nocache", 3, 100, false, false, 100, ""⟩]
        [] [{ uuid := "ep-kept" }]).1, upd.uuid ≠ "ep-nocache") ∧
    (∀ ins ∈ (classifyPodcastEpisodes "pod-1" "T" "A" "S"
        [⟨"ep-kept", 3, 3600, false, false, 3600, ""⟩,
         ⟨"ep-nocache", 3, 100, false, false, 100, ""⟩]
        [] [{ uuid := "ep-kept" }]).2, ins.uuid ≠ "ep-nocache") := by
  have h := classify_dropsUncachedInsert "pod-1" "T" "A" "S"
    [⟨"ep-kept", 3, 3600, false, false, 3600, ""⟩] []
    ⟨"ep-nocache", 3, 100, false, false, 100, ""⟩
    [] [{ uuid := "ep-kept" }] (Or.inl (by decide)) (by decide) (by decide)
  exact ⟨h.1, (h.2 (by decide)).1, (h.2 (by decide)).2⟩

/-- C10: a sync record with starred true but playingStatus 0 and playedUpTo
0 fails the interaction filter, which tests only playingStatus and
playedUpTo: the record is ignored entirely, the classification equals the
one without it, and when its id occurs in no other record it is neither
updated nor inserted, so its starred flag is never persisted. -/
theorem classify_ignoresStarredOnly (pU pT pA pS : String)
    (pre post : List EpisodeSyncItem) (s : EpisodeSyncItem)
    (existing : List String) (cache : List CacheEpisode)
    (_hstar : s.starred = true) (h0 : s.playingStatus = 0) (h1 : s.playedUpTo = 0) :
    classifyPodcastEpisodes pU pT pA pS (pre ++ s :: post) existing cache =
      classifyPodcastEpisodes pU pT pA pS (pre ++ post) existing cache ∧
    (s.uuid ∉ (pre ++ post).map EpisodeSyncItem.uuid →
      (∀ upd ∈ (classifyPodcastEpisodes pU pT pA pS (pre ++ s :: post) existing cache).1,
        upd.uuid ≠ s.uuid) ∧
      (∀ ins ∈ (classifyPodcastEpisodes pU pT pA pS (pre ++ s :: post) existing cache).2,
        ins.uuid ≠ s.uuid)) := by
  have hsb : (decide (0 < s.playingStatus) || decide (0 < s.playedUpTo)) = false := by
    simp [h0, h1]
  have heq : classifyPodcastEpisodes pU pT pA pS (pre ++ s :: post) existing cache =
      classifyPodcastEpisodes pU pT pA pS (pre ++ post) existing cache := by
    unfold classifyPodcastEpisodes
    rw [List.filter_append, List.filter_append, List.filter_cons, hsb,
      if_neg Bool.false_ne_true]
  refine ⟨heq, ?_⟩
  intro hnot
  have hsub : ∀ u, u ∈ ((pre ++ post).filter
      (fun ep => decide (0 < ep.playingStatus) || decide (0 < ep.playedUpTo))).map
        EpisodeSyncItem.uuid → u ∈ (pre ++ post).map EpisodeSyncItem.uuid := by
    intro u hu
    obtain ⟨ep, hep, rfl⟩ := List.mem_map.mp hu
    exact List.mem_map.mpr ⟨ep, (List.mem_filter.mp hep).1, rfl⟩
  constructor
  · intro upd hupd
    rw [heq, classify_eq] at hupd
    intro habs
    exact hnot (habs ▸ hsub _ (classifyInteracted_update_mem pU pT pA pS _ existing cache upd hupd))
  · intro ins hins
    rw [heq, classify_eq] at hins
    intro habs
    exact hnot (habs ▸ hsub _ (classifyInteracted_insert_mem pU pT pA pS _ existing cache ins hins))

theorem classify_ignoresStarredOnly_witness :
    (classifyPodcastEpisodes "pod-1" "T" "A" "S"
        [⟨"ep-played", 3, 3600, false, false, 3600, ""⟩,
         ⟨"ep-starred-only", 0, 0, false, true, 100, ""⟩]
        ["ep-played"] [] =
      classifyPodcastEpisodes "pod-1" "T" "A" "S"
        [⟨"ep-played", 3, 3600, false, false, 3600, ""⟩]
        ["ep-played"] []) ∧
    (∀ upd ∈ (classifyPodcastEpisodes "pod-1" "T" "A" "S"
        [⟨"ep-played", 3, 3600, false, false, 3600, ""⟩,
         ⟨"ep-starred-only", 0, 0, false, true, 100, ""⟩]
        ["ep-played"] []).1, upd.uuid ≠ "ep-starred-only") ∧
    (∀ ins ∈ (classifyPodcastEpisodes "pod-1" "T" "A" "S"
        [⟨"ep-played", 3, 3600, false, false, 3600, ""⟩,
         ⟨"ep-starred-only", 0, 0, false, true, 100, ""⟩]
        ["ep-played"] []).2, ins.uuid ≠ "ep-starred-only") := by
  have h := classify_ignoresStarredOnly "pod-1" "T" "A" "S"
    [⟨"ep-played", 3, 3600, false, false, 3600, ""⟩] []
    ⟨"ep-starred-only", 0, 0, false, true, 100, ""⟩
    ["ep-played"] [] (by decide) (by decide) (by decide)
  exact ⟨h.1, (h.2 (by decide)).1, (h.2 (by decide)).2⟩

/-! ## Progress-tracked fan-out (syncPodcast, src/unnamed/part_001) -/

/-- The backup progress counter row: completed units and expected total. -/
structure BackupProgress where
  completed : Nat
  total : Nat
  deriving Repr, DecidableEq

/-- Modelled from the spec: resetBackupProgress stores a zeroed counter with
the expected total (stage 1 resets it to the number of podcasts; the db.ts
generation holding it is not in the snapshot). -/
def resetBackupProgress (total : Nat) : BackupProgress := ⟨0, total⟩

/-- Modelled from the spec: incrementBackupProgress performs a single atomic
read-modify-write increment of completed and returns the updated row;
atomicity means concurrent increments serialize, so any run is a sequence
of these steps. -/
def incrementBackupProgress (p : BackupProgress) : BackupProgress :=
  ⟨p.completed + 1, p.total⟩

/-- From src/unnamed/part_001 syncPodcast: after processing its podcast, a
unit of work increments the shared counter and observes whether the
returned progress satisfies completed >= total, in which case it enqueues
the stage-3 history sync. -/
def syncPodcastObserves (p : BackupProgress) : BackupProgress × Bool :=
  let progress := incrementBackupProgress p
  (progress, decide (progress.total ≤ progress.completed))

/-- Number of delivered stage-2 units, running in some serialization of n
deliveries, that observe total reached and so enqueue the stage-3 sync. -/
def stage3Triggers : Nat → BackupProgress → Nat
  | 0, _ => 0
  | n + 1, p =>
    (if (syncPodcastObserves p).2 then 1 else 0) + stage3Triggers n (syncPodcastObserves p).1

/-- C5 counterexample: with one podcast (total 1) and one redelivery of its
completed stage-2 unit (two increments), both executions observe
completed >= total, so stage 3 is enqueued twice, not exactly once. -/
theorem syncPodcast_redelivery_doubleTrigger :
    stage3Triggers 2 (resetBackupProgress 1) = 2 ∧
      ¬ stage3Triggers 2 (resetBackupProgress 1) = 1 := by
  decide

theorem stage3Triggers_aux :
    ∀ (n c t : Nat), c + n = t → 0 < n → stage3Triggers n ⟨c, t⟩ = 1 := by
  intro n
  induction n with
  | zero => intro c t _ h; omega
  | succ n ih =>
    intro c t hct _
    by_cases hn : n = 0
    · subst hn
      have hle : t ≤ c + 1 := by omega
      simp [stage3Triggers, syncPodcastObserves, incrementBackupProgress, hle]
    · have hlt : ¬ t ≤ c + 1 := by omega
      simp only [stage3Triggers, syncPodcastObserves, incrementBackupProgress]
      rw [if_neg (by simpa using hlt)]
      rw [Nat.zero_add]
      exact ih (c + 1) t (by omega) (by omega)

/-- C5 amended: when every stage-2 unit is delivered and executed exactly
once (the number of increments equals the expected total, which is
positive), exactly one unit observes that the atomically incremented
counter reached the total, so stage 3 is enqueued exactly once; under
redelivery of an already-completed unit the completed >= total check is
observed again, so exactly-once triggering is not guaranteed by the code. -/
theorem stage3_triggersOnce (t : Nat) (h : 0 < t) :
    stage3Triggers t (resetBackupProgress t) = 1 :=
  stage3Triggers_aux t 0 t (Nat.zero_add t) h

theorem stage3_triggersOnce_witness :
    stage3Triggers 3 (resetBackupProgress 3) = 1 :=
  stage3_triggersOnce 3 (by decide)

end Castkeeper
